import Mathlib

/-!
Verification development for the drawzzl backend (src/src/index.ts).

The definitions below are a shallow embedding of the turn engine and the
socket handlers of `src/index.ts`.  JavaScript numbers that the program only
ever uses as integers are modelled as `Nat` or `Int`; `Math.floor` on
non-negative rationals is `Nat.floor`; JavaScript falsy defaults
(`x || d`) are modelled as `if x = 0 then d else x`; mongoose `Map` fields
are association lists.  Handlers are pure functions from a room state and
the event payload to the new room state plus the list of emitted
socket events, each tagged with its target (the whole room, or one socket).
-/

-- ## Turn engine config (src/index.ts lines 66-70)

def ROOM_TICK_MS : Nat := 1000
def TURN_SECONDS : Nat := 60
def MAX_POINTS : Nat := 500
def MIN_POINTS : Nat := 50
def DRAWER_BONUS_PER_GUESSER : Nat := 50

-- ## calculatePoints (src/index.ts lines 130-136)

/-- Embedding of `calculatePoints(timeRemaining, maxTime)`:
`intervalTime = Math.floor(timeRemaining / 5) * 5`,
`percentage = intervalTime / maxTime` (JS float division, modelled in `ℚ`),
`points = Math.floor(MAX_POINTS * percentage)`, result
`Math.max(MIN_POINTS, points)`.  All quantities are non-negative so
`Math.floor` is `Nat.floor`. -/
def calculatePoints (timeRemaining maxTime : Nat) : Nat :=
  let intervalTime : Nat := timeRemaining / 5 * 5
  let percentage : ℚ := (intervalTime : ℚ) / (maxTime : ℚ)
  let points : Nat := ⌊(MAX_POINTS : ℚ) * percentage⌋₊
  max MIN_POINTS points

-- ## maskWord (src/index.ts lines 77-82)

/-- Embedding of `maskWord(word, revealedIndices)`: split the word into
characters, map each `(char, idx)` to the character if `idx` is revealed and
to an underscore otherwise, and join with single spaces. -/
def maskWord (word : String) (revealedIndices : List Nat) : String :=
  String.intercalate " "
    (word.data.enum.map
      (fun p => if revealedIndices.contains p.1 then p.2.toString else "_"))

-- ## getEditDistance (src/index.ts lines 94-127)

/-- Core of the Wagner-Fischer matrix of `getEditDistance`.  The source
fills `matrix[i][j]` for prefixes of length `i` of `str1` and `j` of `str2`:
`matrix[i][0] = i`, `matrix[0][j] = j`, and for `i,j ≥ 1`, if the last
characters of the two prefixes agree the diagonal value is copied, else
`1 + min(sub, ins, del)` with `sub = matrix[i-1][j-1]`,
`ins = matrix[i][j-1]`, `del = matrix[i-1][j]`.  Indexing prefixes by their
last character is recursion on the reversed prefix, so this function takes
the two prefixes REVERSED: `editDistAux r1 r2 = matrix[i][j]` whenever
`r1` is the reverse of the length-`i` prefix of `str1` and `r2` the reverse
of the length-`j` prefix of `str2`. -/
def editDistAux : List Char → List Char → Nat
  | [], ys => ys.length
  | x :: xs, [] => (x :: xs).length
  | x :: xs, y :: ys =>
      if x = y then editDistAux xs ys
      else
        min (editDistAux xs ys + 1)
          (min (editDistAux (x :: xs) ys + 1) (editDistAux xs (y :: ys) + 1))

/-- Embedding of `getEditDistance(str1, str2)`: the bottom-right entry
`matrix[len1][len2]`, i.e. `editDistAux` on the reversed character lists. -/
def getEditDistance (str1 str2 : String) : Nat :=
  editDistAux str1.data.reverse str2.data.reverse

-- ## Guess normalization (src/index.ts line 770 and 773)

/-- Leading and trailing whitespace removal on a character list; model of
JavaScript `String.prototype.trim`. -/
def trimChars (l : List Char) : List Char :=
  ((l.dropWhile Char.isWhitespace).reverse.dropWhile Char.isWhitespace).reverse

/-- Model of `s.trim().toLowerCase().replace(/\s+/g, '')`: trim, lowercase
every character, then drop all whitespace characters. -/
def normalizeGuess (s : String) : String :=
  String.mk (((trimChars s.data).map Char.toLower).filter
    (fun c => !c.isWhitespace))

/-- Model of `s.toLowerCase()` (the only transformation the guess handler
applies to `room.currentWord`). -/
def lowerString (s : String) : String :=
  String.mk (s.data.map Char.toLower)

-- ## Data model (src/models/Room.ts and the Player interface of src/index.ts)

/-- Player entry of `room.players`. -/
structure Player where
  id : String
  name : String
  score : Nat
  isDrawer : Bool := false
  avatar : List Nat := [0, 0, 0, 0]
deriving DecidableEq, Repr

/-- Chat entry `{id, name, msg, ts}`; the timestamp is a plain number. -/
structure ChatItem where
  id : String
  name : String
  msg : String
  ts : Nat
deriving DecidableEq, Repr

/-- Room document.  Fields that `updateSettings` writes from client input
are `Int` (the clamping arithmetic happens on signed values); `round` and
`drawerIndex` are only ever assigned non-negative values and are `Nat`.
`roundPoints` (a mongoose `Map`) is an association list. -/
structure Room where
  roomId : String
  players : List Player
  maxPlayers : Int
  gameStarted : Bool
  currentWord : Option String
  round : Nat
  drawerIndex : Nat
  maxRounds : Int
  correctGuessers : List String
  chat : List ChatItem
  drawTime : Int
  wordCount : Int
  customWords : List String
  customWordProbability : Int
  roundPoints : List (String × Nat)
  revealedLetters : List Nat
deriving DecidableEq, Repr

/-- Target of an emitted socket event: the whole room
(`io.to(roomId).emit`) or a single socket (`socket.emit` /
`io.to(socketId).emit`). -/
inductive Target where
  | room : Target
  | socket : String → Target
deriving DecidableEq, Repr

/-- Outbound events that matter to the claims; payloads are kept where a
claim mentions them. -/
inductive Event where
  | errorMsg : String → Event
  | roomJoined : String → Event
  | playerJoined : List Player → Event
  | settingsUpdated : Event
  | chatMsg : String → String → String → Event
  | closeGuess : String → Event
  | correctGuess : String → String → Nat → Nat → Event
  | turnEnded : Option String → List String → Nat → Event
  | gameOver : List Player → Event
deriving DecidableEq, Repr

/-- An emission: event plus its target. -/
abbrev Emit := Target × Event

-- ## Safe drawer helpers (src/index.ts lines 139-161)

/-- Embedding of `getDrawerIndex(room)`: 0 for an empty player list, else
`drawerIndex` clamped to `[0, players.length - 1]` (`drawerIndex` is `Nat`
here, so only the upper clamp is non-trivial). -/
def getDrawerIndex (room : Room) : Nat :=
  if room.players.length = 0 then 0
  else min room.drawerIndex (room.players.length - 1)

/-- Embedding of `getDrawer(room)`. -/
def getDrawer (room : Room) : Option Player :=
  if room.players.length = 0 then none
  else room.players.get? (getDrawerIndex room)

/-- Embedding of `hasPlayers(room)`. -/
def hasPlayers (room : Room) : Bool :=
  room.players.length != 0

-- ## Small state helpers

/-- Mongoose `Map.set k v`: overwrite the entry for `k`, or append it. -/
def mapSet (m : List (String × Nat)) (k : String) (v : Nat) :
    List (String × Nat) :=
  if m.any (fun kv => kv.1 = k) then
    m.map (fun kv => if kv.1 = k then (k, v) else kv)
  else m ++ [(k, v)]

/-- Mongoose `Map.get k`. -/
def mapGet (m : List (String × Nat)) (k : String) : Option Nat :=
  (m.find? (fun kv => kv.1 = k)).map (fun kv => kv.2)

/-- Model of `const player = room.players.find(p => p.id === sid);
player.score += pts`: mutate the score of the first matching entry. -/
def addScore (ps : List Player) (sid : String) (pts : Nat) : List Player :=
  match ps with
  | [] => []
  | p :: rest =>
      if p.id = sid then { p with score := p.score + pts } :: rest
      else p :: addScore rest sid pts

/-- Model of `const drawer = room.players[i]; drawer.score += b`:
mutate the score of the entry at index `i`. -/
def addScoreAt (ps : List Player) (i : Nat) (pts : Nat) : List Player :=
  match ps, i with
  | [], _ => []
  | p :: rest, 0 => { p with score := p.score + pts } :: rest
  | p :: rest, Nat.succ i => p :: addScoreAt rest i pts

/-- Insertion step for `sortByScoreDesc`. -/
def insertDesc (p : Player) : List Player → List Player
  | [] => [p]
  | q :: rest =>
      if q.score < p.score then p :: q :: rest else q :: insertDesc p rest

/-- Model of `[...players].sort((a, b) => b.score - a.score)`
(descending by score); a simple insertion sort, order among equal scores is
irrelevant to every claim. -/
def sortByScoreDesc : List Player → List Player
  | [] => []
  | p :: rest => insertDesc p (sortByScoreDesc rest)

/-- JavaScript `x || d` for a number known to be a non-negative integer:
`0` is the only falsy value. -/
def natOr (x d : Nat) : Nat := if x = 0 then d else x

/-- JavaScript `x || d` for an integer: `0` is the only falsy value. -/
def intOr (x d : Int) : Int := if x = 0 then d else x

-- ## endTurn (src/index.ts lines 163-296)

/-- Embedding of the state change and emissions of `endTurn`.  The
persistence retry loop, the `endTurnInProgress` re-entrancy flag and the
5-second intermission timer are concurrency mechanics with no effect on the
state transition itself.  Order as in the source: drawer bonus and the
`turnEnded` broadcast first, then rotation, then the game-over check. -/
def endTurn (room : Room) : Room × List Emit :=
  if !hasPlayers room then (room, [])
  else
    let drawerIdx := getDrawerIndex room
    let drawerBonus := DRAWER_BONUS_PER_GUESSER * room.correctGuessers.length
    let players1 := addScoreAt room.players drawerIdx drawerBonus
    let roundPoints1 :=
      match room.players.get? drawerIdx with
      | some d => mapSet room.roundPoints d.id drawerBonus
      | none => room.roundPoints
    let ev1 : Emit :=
      (Target.room,
       Event.turnEnded room.currentWord room.correctGuessers drawerBonus)
    let nextIdx := (drawerIdx + 1) % room.players.length
    let round1 := if nextIdx = 0 then natOr room.round 1 + 1 else room.round
    if intOr room.maxRounds 3 < (natOr round1 1 : Int) then
      ({ room with
          players := players1
          roundPoints := roundPoints1
          drawerIndex := nextIdx
          round := round1
          gameStarted := false
          currentWord := none
          correctGuessers := [] },
       [ev1, (Target.room, Event.gameOver (sortByScoreDesc players1))])
    else
      ({ room with
          players := players1
          roundPoints := roundPoints1
          drawerIndex := nextIdx
          round := round1
          currentWord := none
          correctGuessers := [] },
       [ev1])

-- ## Content moderation (src/lib/profanityFilter.ts, source in
-- ## src/unnamed/part_003)

/-- JavaScript regex word character, `\w = [A-Za-z0-9_]` (the source regexes
carry no `u` flag, so `\w` and `\b` are ASCII-only). -/
def isWordChar (c : Char) : Bool :=
  (decide ('a' ≤ c) && decide (c ≤ 'z')) ||
    (decide ('A' ≤ c) && decide (c ≤ 'Z')) ||
    (decide ('0' ≤ c) && decide (c ≤ '9')) || c = '_'

/-- Wordness of an optional neighbouring character; a string edge counts as
non-word, which makes `\b` hold at an edge next to a word character. -/
def wordAt : Option Char → Bool
  | none => false
  | some c => isWordChar c

/-- Whether the lowercase word `w` is an initial segment of `l` up to
lowercasing, i.e. a case-insensitive literal match of `w` at this
position. -/
def matchesLower (w l : List Char) : Bool :=
  (l.take w.length).map Char.toLower = w

/-- One position of the JavaScript regex `\b<word>\b` with the `i` flag:
`w` matches case-insensitively at the head of `l`, the wordness of the first
matched character differs from that of the preceding character `prev`
(left `\b`), and the wordness of the last character of `w` differs from that
of the character following the match (right `\b`). -/
def wordMatchAt (w : List Char) (prev : Option Char) (l : List Char) : Bool :=
  matchesLower w l &&
    (wordAt l.head? != wordAt prev) &&
    (isWordChar (w.getLastD ' ') != wordAt (l.get? w.length))

/-- `regex.test` for `\b<word>\b` with the `i` flag: some position of `l`
matches.  `prev` is the character before the current position, `none` at the
start of the string. -/
def hasWordMatch (w : List Char) (prev : Option Char) : List Char → Bool
  | [] => false
  | c :: rest => wordMatchAt w prev (c :: rest) || hasWordMatch w (some c) rest

/-- `String.prototype.includes`: `w` occurs as a contiguous substring. -/
def hasSubstr : List Char → List Char → Bool
  | [], w => w.isEmpty
  | c :: rest, w => ((c :: rest).take w.length = w : Bool) || hasSubstr rest w

/-- The `PROFANITY_LIST` array of src/lib/profanityFilter.ts, verbatim and in
source order. -/
def PROFANITY_LIST : List String :=
  ["fuck", "shit", "bitch", "ass", "damn", "hell", "crap", "piss",
   "dick", "cock", "pussy", "cunt", "bastard", "whore", "slut",
   "fag", "nigger", "nigga", "retard", "rape", "sex", "porn",
   "f*ck", "sh*t", "b*tch", "a$$", "fuk", "fck", "sht", "btch",
   "azz", "arse", "asshole", "a**hole", "dumbass", "jackass",
   "idiot", "stupid", "moron", "dumb", "loser", "noob", "trash",
   "kill yourself", "kys", "die", "cancer", "aids"]

/-- Embedding of `containsProfanity`: the source lowercases the message and,
for each listed word, returns true on a `\b`-bounded case-insensitive regex
hit or on a plain `includes` hit; both tests of the loop body are modelled
(the regex hit implies the `includes` hit, so the disjunction equals
substring containment, but the embedding keeps the source shape). -/
def containsProfanity (message : String) : Bool :=
  PROFANITY_LIST.any (fun w =>
    hasWordMatch w.data none (lowerString message).data ||
      hasSubstr (lowerString message).data w.data)

/-- One pass of `filtered.replace(new RegExp(..., "gi"), m =>
"*".repeat(m.length))` for a single lowercase word `w`: scan left to right;
at each `\b`-bounded case-insensitive occurrence of `w` replace its
characters by asterisks and resume after them (`skip` counts characters of
the current match still to replace, so matches never overlap, exactly as
with a `g`-flag regex whose `lastIndex` jumps past each match). -/
def replaceWordAux (w : List Char) (prev : Option Char) (skip : Nat) :
    List Char → List Char
  | [] => []
  | c :: rest =>
      match skip with
      | Nat.succ k => '*' :: replaceWordAux w (some c) k rest
      | 0 =>
          if w ≠ [] ∧ wordMatchAt w prev (c :: rest) = true then
            '*' :: replaceWordAux w (some c) (w.length - 1) rest
          else c :: replaceWordAux w (some c) 0 rest

/-- Embedding of `filterProfanity`: fold the replacement pass over the word
list in source order; later words see the asterisks written by earlier
ones, as in the source where `filtered` is reassigned per word. -/
def filterProfanity (message : String) : String :=
  PROFANITY_LIST.foldl
    (fun filtered w => String.mk (replaceWordAux w.data none 0 filtered.data))
    message

/-- Length of the run of copies of `c` at the head of the list. -/
def runLen (c : Char) : List Char → Nat
  | [] => 0
  | d :: rest => if d = c then runLen c rest + 1 else 0

/-- JavaScript line terminators, the characters `.` does not match. -/
def isLineTerminator (c : Char) : Bool :=
  c = Char.ofNat 10 || c = Char.ofNat 13 ||
    c = Char.ofNat 0x2028 || c = Char.ofNat 0x2029

/-- Embedding of the spam test `/(.)\1{10,}/.test(trimmed)`: some
non-line-terminator character is followed by at least ten further copies of
itself, i.e. eleven or more consecutive equal characters. -/
def hasSpamRun : List Char → Bool
  | [] => false
  | c :: rest =>
      (!isLineTerminator c && decide (10 ≤ runLen c rest)) || hasSpamRun rest

/-- Embedding of `validateMessage` (src/lib/profanityFilter.ts): messages
that are blank after trimming are rejected (`!message` of the source is
subsumed, since the empty string trims to length 0); the trimmed message is
rejected when longer than 200 or when it has an eleven-plus
repeated-character run; profane trimmed text is returned filtered; any other
trimmed text is returned as is.  Handlers below take the validator as a
parameter (the wall-clock-free boundary of this embedding); witnesses and
counterexamples instantiate it with this function. -/
def validateMessage (message : String) : Option String :=
  if (trimChars message.data).length = 0 then none
  else
    let trimmed := String.mk (trimChars message.data)
    if 200 < trimmed.length then none
    else if hasSpamRun trimmed.data then none
    else if containsProfanity trimmed then some (filterProfanity trimmed)
    else some trimmed

-- ## guess handler (src/index.ts lines 758-826)

/-- Embedding of the `guess` socket handler.  `timeRemaining` is the
`Math.max(0, Math.ceil((turnEndsAt - Date.now()) / 1000))` of the source,
taken here as a parameter since it depends on the wall clock.  JavaScript
`!room.currentWord` is also true for the empty string, hence the extra
`w = ""` early return. -/
def handleGuess (validate : String → Option String) (room : Room)
    (senderId senderName guess : String) (timeRemaining : Nat) :
    Room × List Emit :=
  match room.currentWord with
  | none => (room, [])
  | some w =>
    if w = "" then (room, [])
    else if !room.gameStarted then (room, [])
    else
      match validate guess with
      | none =>
          (room, [(Target.socket senderId,
                   Event.errorMsg "Guess blocked: inappropriate content")])
      | some cleanedGuess =>
        let g := normalizeGuess cleanedGuess
        if g = "" then (room, [])
        else
          let ans := lowerString w
          if g = ans then
            let isDrawer : Bool :=
              match getDrawer room with
              | some d => d.id = senderId
              | none => false
            let already := room.correctGuessers.contains senderId
            if isDrawer || already then (room, [])
            else
              let correctGuessers1 := room.correctGuessers ++ [senderId]
              let points := calculatePoints timeRemaining TURN_SECONDS
              let players1 := addScore room.players senderId points
              let roundPoints1 :=
                if room.players.any (fun p => p.id = senderId) then
                  mapSet room.roundPoints senderId points
                else room.roundPoints
              let total :=
                match room.players.find? (fun p => p.id = senderId) with
                | some p => p.score + points
                | none => 0
              let room1 := { room with
                correctGuessers := correctGuessers1
                players := players1
                roundPoints := roundPoints1 }
              let ev : Emit :=
                (Target.room,
                 Event.correctGuess senderId senderName points total)
              let nonDrawers := room.players.length - 1
              if nonDrawers ≤ correctGuessers1.length then
                let r2 := endTurn room1
                (r2.1, ev :: r2.2)
              else (room1, [ev])
          else
            let distance := getEditDistance g ans
            let closeEvs : List Emit :=
              if 3 ≤ ans.length ∧ distance = 1 then
                [(Target.socket senderId,
                  Event.closeGuess "You are very close!")]
              else []
            (room,
             closeEvs ++
               [(Target.room, Event.chatMsg senderId senderName cleanedGuess)])

-- ## chat handler (src/index.ts lines 741-756)

/-- Embedding of the `chat` socket handler; `now` is the `new Date()`
timestamp. -/
def handleChat (validate : String → Option String) (room : Room)
    (senderId name msg : String) (now : Nat) : Room × List Emit :=
  if trimChars msg.data = [] then (room, [])
  else
    match validate msg with
    | none =>
        (room, [(Target.socket senderId,
                 Event.errorMsg "Message blocked: inappropriate content or spam")])
    | some cleanedMsg =>
        ({ room with chat := room.chat ++
            [{ id := senderId, name := name, msg := cleanedMsg, ts := now }] },
         [(Target.room, Event.chatMsg senderId name cleanedMsg)])

-- ## joinRoom handler (src/index.ts lines 620-659)

/-- Embedding of the `joinRoom` socket handler.  JavaScript
`avatar || [0, 0, 0, 0]` is `Option.getD` (an absent avatar is the only
falsy case; arrays are truthy). -/
def handleJoinRoom (validate : String → Option String) (room : Room)
    (callerId playerName : String) (avatar : Option (List Nat)) :
    Room × List Emit :=
  match validate playerName with
  | none =>
      (room, [(Target.socket callerId,
               Event.errorMsg "Invalid name: inappropriate content")])
  | some cleanedName =>
    if room.maxPlayers ≤ (room.players.length : Int) then
      (room, [(Target.socket callerId, Event.errorMsg "Room is full")])
    else
      let alreadyIn := room.players.any (fun p => p.id = callerId)
      let room1 :=
        if alreadyIn then room
        else { room with players := room.players ++
                [{ id := callerId, name := cleanedName, score := 0,
                   isDrawer := false, avatar := avatar.getD [0, 0, 0, 0] }] }
      (room1, [(Target.socket callerId, Event.roomJoined room.roomId),
               (Target.room, Event.playerJoined room1.players),
               (Target.socket callerId, Event.playerJoined room1.players)])

-- ## startGame handler (src/index.ts lines 694-725)

/-- Embedding of the `startGame` socket handler up to and including the
state saved before `startTurn` is invoked.  The third component records
whether `startTurn(io, room)` was reached; `startTurn` (lines 335-400)
performs randomized word selection and timer setup and modifies neither
`round`, nor `drawerIndex`, nor any player's score. -/
def handleStartGame (room : Room) (callerId : String) :
    Room × List Emit × Bool :=
  match (room.players.head?).map (fun p => p.id) with
  | none =>
      (room, [(Target.socket callerId, Event.errorMsg "Only creator can start")],
       false)
  | some cid =>
    if cid ≠ callerId then
      (room, [(Target.socket callerId, Event.errorMsg "Only creator can start")],
       false)
    else if room.players.length < 2 then
      (room, [(Target.socket callerId, Event.errorMsg "Need 2+ players")], false)
    else if room.gameStarted then (room, [], false)
    else ({ room with round := 1, drawerIndex := 0 }, [], true)

-- ## updateSettings handler (src/index.ts lines 565-615)

/-- Client payload of `updateSettings`; absent or non-numeric JavaScript
fields land on `0` (falsy), which `x || d` then replaces by the default. -/
structure SettingsInput where
  rounds : Int
  drawTime : Int
  wordCount : Int
  maxPlayers : Int
  customWordProbability : Int
  customWords : String
deriving DecidableEq, Repr

/-- Embedding of the custom-word parsing: split on commas, trim and
lowercase each piece, drop empties. -/
def parseCustomWords (s : String) : List String :=
  ((s.splitOn ",").map
      (fun w => String.mk ((trimChars w.data).map Char.toLower))).filter
    (fun w => 0 < w.length)

/-- Embedding of the `updateSettings` socket handler.  Note that
`maxRounds` is assigned `settings.rounds || 3` WITHOUT any clamp, while
`drawTime`, `wordCount`, `maxPlayers` and `customWordProbability` are
clamped. -/
def handleUpdateSettings (room : Room) (callerId : String)
    (s : SettingsInput) : Room × List Emit :=
  match (room.players.head?).map (fun p => p.id) with
  | none =>
      (room, [(Target.socket callerId,
               Event.errorMsg "Only creator can change settings")])
  | some cid =>
    if cid ≠ callerId then
      (room, [(Target.socket callerId,
               Event.errorMsg "Only creator can change settings")])
    else if room.gameStarted then
      (room, [(Target.socket callerId,
               Event.errorMsg "Cannot change settings during game")])
    else
      let room1 := { room with
        maxRounds := intOr s.rounds 3
        drawTime := max 30 (min 180 (intOr s.drawTime 60))
        wordCount := max 3 (min 5 (intOr s.wordCount 3))
        maxPlayers := max 2 (min 15 (intOr s.maxPlayers 8))
        customWords := parseCustomWords s.customWords
        customWordProbability :=
          max 0 (min 100 (intOr s.customWordProbability 0)) }
      (room1, [(Target.room, Event.settingsUpdated)])

-- ## disconnect handler (src/index.ts lines 831-896)

/-- Embedding of the per-room body of the `disconnect` handler: remove the
player, clamp `drawerIndex` when it fell out of range, and DELETE the room
immediately (result `none`) when the player list became empty; the source
has no other deletion site and no time-based sweeper. -/
def handleDisconnect (room : Room) (socketId : String) :
    Option Room × List Emit :=
  let wasHost : Bool :=
    match room.players.head? with
    | some p => p.id = socketId
    | none => false
  let hostName := (room.players.head?).map (fun p => p.name)
  let players1 := room.players.filter (fun p => p.id ≠ socketId)
  let drawerIndex1 :=
    if players1.length ≤ room.drawerIndex then 0 else room.drawerIndex
  if players1.length = 0 then (none, [])
  else
    let room1 := { room with players := players1, drawerIndex := drawerIndex1 }
    let hostEvs : List Emit :=
      if wasHost then
        match players1.head?, hostName with
        | some nh, some hn =>
            [(Target.room, Event.chatMsg "system" "System"
                (hn ++ " left. " ++ nh.name ++ " is now the host."))]
        | _, _ => []
      else []
    (some room1, hostEvs ++ [(Target.room, Event.playerJoined players1)])

-- ## Specification-side definitions (for refinement claims)

/-- Standard unit-cost Levenshtein distance, as the spec words it
("standard unit-cost insert/delete/substitute"): the textbook recurrence. -/
def levSpec : List Char → List Char → Nat
  | [], ys => ys.length
  | x :: xs, [] => (x :: xs).length
  | x :: xs, y :: ys =>
      min ((if x = y then 0 else 1) + levSpec xs ys)
        (min (1 + levSpec (x :: xs) ys) (1 + levSpec xs (y :: ys)))

-- ## Concrete rooms used by witnesses and counterexamples

/-- A lobby-state room template with every field at its `createRoom`
default. -/
def baseRoom : Room where
  roomId := "ROOM01"
  players := []
  maxPlayers := 8
  gameStarted := false
  currentWord := none
  round := 1
  drawerIndex := 0
  maxRounds := 3
  correctGuessers := []
  chat := []
  drawTime := 60
  wordCount := 3
  customWords := []
  customWordProbability := 0
  roundPoints := []
  revealedLetters := []

def alice : Player := { id := "A", name := "Alice", score := 42 }

def bob : Player := { id := "B", name := "Bob", score := 7 }

/-- Whether an emission list contains a `gameOver` broadcast. -/
def hasGameOver (evs : List Emit) : Bool :=
  evs.any (fun e =>
    match e.2 with
    | Event.gameOver _ => true
    | _ => false)

/-- DRAWING-state room whose current word contains internal whitespace
(reachable: custom words keep internal spaces, and `wordSelected` accepts any
client string).  Alice (index 0) is the drawer, Bob guesses. -/
def roomIceCream : Room :=
  { baseRoom with
    players := [alice, bob]
    gameStarted := true
    currentWord := some "ice cream" }

/-- DRAWING-state room with the word "house"; Alice draws, Bob guesses. -/
def roomHouse : Room :=
  { baseRoom with
    players := [alice, bob]
    gameStarted := true
    currentWord := some "house" }

/-- Room about to finish the last turn of the last round: two players,
`drawerIndex = 1`, `round = maxRounds = 1`, Bob has guessed correctly. -/
def roomLastTurn : Room :=
  { baseRoom with
    players := [alice, bob]
    gameStarted := true
    currentWord := some "apple"
    drawerIndex := 1
    round := 1
    maxRounds := 1
    correctGuessers := ["B"] }

/-- Lobby room with two players carrying non-zero scores (e.g. from a
finished game); Alice is the host. -/
def roomPreStart : Room :=
  { baseRoom with players := [alice, bob] }

/-- An `updateSettings` payload asking for 50 rounds, everything else
absent. -/
def settingsRounds50 : SettingsInput :=
  { rounds := 50, drawTime := 0, wordCount := 0, maxPlayers := 0,
    customWordProbability := 0, customWords := "" }

/-- Lobby room whose chat already holds 50 entries. -/
def roomChat50 : Room :=
  { baseRoom with
    players := [alice, bob]
    chat := List.replicate 50 { id := "A", name := "Alice", msg := "hi", ts := 0 } }

/-- Room whose only player is Alice. -/
def roomSolo : Room :=
  { baseRoom with players := [alice] }

/-- Room at capacity (`maxPlayers = 2`) containing Alice and Bob. -/
def roomFull2 : Room :=
  { baseRoom with players := [alice, bob], maxPlayers := 2 }

-- ## Helper lemmas: the points formula

theorem calculatePoints_formula (t m : Nat) :
    calculatePoints t m = max MIN_POINTS (MAX_POINTS * (t / 5 * 5) / m) := by
  simp only [calculatePoints]
  congr 1
  rw [mul_div_assoc']
  rw [show ((MAX_POINTS : ℚ) * (t / 5 * 5 : Nat) : ℚ) =
      ((MAX_POINTS * (t / 5 * 5) : Nat) : ℚ) by push_cast; ring]
  rw [Nat.floor_div_nat, Nat.floor_natCast]

-- ## Helper lemmas: levSpec recurrences and Lipschitz bounds

lemma levSpec_nil_left (ys : List Char) : levSpec [] ys = ys.length := by
  rw [levSpec]

lemma levSpec_cons_nil (x : Char) (xs : List Char) :
    levSpec (x :: xs) [] = xs.length + 1 := by
  rw [levSpec]; rfl

lemma levSpec_cons_cons (x : Char) (xs : List Char) (y : Char) (ys : List Char) :
    levSpec (x :: xs) (y :: ys) =
      min ((if x = y then 0 else 1) + levSpec xs ys)
        (min (1 + levSpec (x :: xs) ys) (1 + levSpec xs (y :: ys))) := by
  rw [levSpec]

lemma levSpec_nil_right (xs : List Char) : levSpec xs [] = xs.length := by
  cases xs with
  | nil => rw [levSpec_nil_left]
  | cons x xs => rw [levSpec_cons_nil]; rfl

lemma levSpec_cons_left_le (x : Char) (xs ys : List Char) :
    levSpec (x :: xs) ys ≤ levSpec xs ys + 1 := by
  cases ys with
  | nil => rw [levSpec_cons_nil, levSpec_nil_right]
  | cons y ys => rw [levSpec_cons_cons]; omega

lemma levSpec_cons_right_le (y : Char) (xs ys : List Char) :
    levSpec xs (y :: ys) ≤ levSpec xs ys + 1 := by
  cases xs with
  | nil => rw [levSpec_nil_left, levSpec_nil_left]; rfl
  | cons x xs => rw [levSpec_cons_cons]; omega

lemma levSpec_le_cons_right (y : Char) (xs ys : List Char) :
    levSpec xs ys ≤ levSpec xs (y :: ys) + 1 := by
  induction xs with
  | nil =>
      rw [levSpec_nil_left, levSpec_nil_left]
      simp only [List.length_cons]; omega
  | cons x xs ih =>
      rw [levSpec_cons_cons]
      have h1 := levSpec_cons_left_le x xs ys
      rcases eq_or_ne x y with h | h
      · subst h; simp only [if_pos rfl]; omega
      · simp only [if_neg h]; omega

lemma levSpec_le_cons_left (x : Char) (xs ys : List Char) :
    levSpec xs ys ≤ levSpec (x :: xs) ys + 1 := by
  induction ys with
  | nil =>
      rw [levSpec_nil_right, levSpec_cons_nil]; omega
  | cons y ys ih =>
      rw [levSpec_cons_cons]
      have h1 := levSpec_cons_right_le y xs ys
      rcases eq_or_ne x y with h | h
      · subst h; simp only [if_pos rfl]; omega
      · simp only [if_neg h]; omega

-- ## Helper lemmas: the source matrix equals the textbook recurrence

lemma editDistAux_cons_cons (x : Char) (xs : List Char) (y : Char)
    (ys : List Char) :
    editDistAux (x :: xs) (y :: ys) =
      if x = y then editDistAux xs ys
      else
        min (editDistAux xs ys + 1)
          (min (editDistAux (x :: xs) ys + 1) (editDistAux xs (y :: ys) + 1)) := by
  rw [editDistAux]

theorem editDistAux_eq_levSpec (xs ys : List Char) :
    editDistAux xs ys = levSpec xs ys := by
  induction xs generalizing ys with
  | nil =>
      rw [show editDistAux [] ys = ys.length by rw [editDistAux],
        levSpec_nil_left]
  | cons x xs ihx =>
      induction ys with
      | nil =>
          rw [show editDistAux (x :: xs) [] = xs.length + 1 by
            rw [editDistAux]; rfl, levSpec_cons_nil]
      | cons y ys ihy =>
          rw [editDistAux_cons_cons, levSpec_cons_cons]
          have d1 := levSpec_le_cons_left x xs ys
          have d2 := levSpec_le_cons_right y xs ys
          rcases eq_or_ne x y with h | h
          · subst h
            simp only [eq_self_iff_true, if_true, ihx]
            omega
          · simp only [if_neg h, ihx, ihy]
            omega

-- ## Helper lemmas: minimum algebra for the snoc recurrence

lemma add_min_distrib (k a b : Nat) :
    k + min a b = min (k + a) (k + b) := by omega

set_option maxHeartbeats 2000000 in
lemma min9_swap (A B C D E F G H I c d : Nat) :
    min (d + min (c + A) (min (1 + B) (1 + C)))
      (min (1 + min (c + D) (min (1 + F) (1 + G)))
        (1 + min (c + E) (min (1 + H) (1 + I)))) =
    min (c + min (d + A) (min (1 + D) (1 + E)))
      (min (1 + min (d + B) (min (1 + F) (1 + H)))
        (1 + min (d + C) (min (1 + G) (1 + I)))) := by
  simp only [add_min_distrib]
  apply le_antisymm <;>
    · simp only [le_min_iff]
      repeat' apply And.intro
      all_goals omega

set_option maxHeartbeats 1000000 in
lemma min5_swap_right (n a c d : Nat) :
    min (d + (n + 1)) (min (1 + min (c + n) (min (1 + a) (1 + (n + 1)))) (1 + (n + 2))) =
    min (c + (n + 1)) (min (1 + min (d + n) (min (1 + a) (1 + (n + 1)))) (1 + (n + 2))) := by
  omega

set_option maxHeartbeats 1000000 in
lemma min5_swap_left (n b c d : Nat) :
    min (d + (n + 1)) (min (1 + (n + 2)) (1 + min (c + n) (min (1 + (n + 1)) (1 + b)))) =
    min (c + (n + 1)) (min (1 + (n + 2)) (1 + min (d + n) (min (1 + (n + 1)) (1 + b)))) := by
  omega

-- ## Helper lemmas: the snoc recurrence and reversal invariance

lemma levSpec_snoc_aux :
    ∀ (n : Nat) (xs ys : List Char), xs.length + ys.length ≤ n → ∀ (x y : Char),
      levSpec (xs ++ [x]) (ys ++ [y]) =
        min ((if x = y then 0 else 1) + levSpec xs ys)
          (min (1 + levSpec (xs ++ [x]) ys) (1 + levSpec xs (ys ++ [y]))) := by
  intro n
  induction n with
  | zero =>
      intro xs ys hlen x y
      rcases xs with _ | ⟨x1, xs1⟩ <;> rcases ys with _ | ⟨y1, ys1⟩
      case nil.nil =>
        have c := levSpec_cons_cons x [] y []
        simp only [List.nil_append, levSpec_nil_left, levSpec_nil_right,
          List.length_nil, List.length_cons] at c ⊢
        omega
      all_goals
        (exfalso; simp only [List.length_nil, List.length_cons] at hlen; omega)
  | succ n ih =>
      intro xs ys hlen x y
      rcases xs with _ | ⟨x1, xs1⟩ <;> rcases ys with _ | ⟨y1, ys1⟩
      case nil.nil =>
        have c := levSpec_cons_cons x [] y []
        simp only [List.nil_append, levSpec_nil_left, levSpec_nil_right,
          List.length_nil, List.length_cons] at c ⊢
        omega
      case nil.cons =>
        have e1 := levSpec_cons_cons x [] y1 (ys1 ++ [y])
        have e2 := ih [] ys1
          (by simp only [List.length_nil, List.length_cons] at hlen ⊢; omega) x y
        have e3 := levSpec_cons_cons x [] y1 ys1
        simp only [List.nil_append] at e2 ⊢
        rw [List.cons_append, e1, e2, e3]
        simp only [levSpec_nil_left, levSpec_nil_right, List.length_append,
          List.length_cons, List.length_nil]
        exact min5_swap_right ys1.length (levSpec [x] ys1)
          (if x = y then 0 else 1) (if x = y1 then 0 else 1)
      case cons.nil =>
        have e1 := levSpec_cons_cons x1 (xs1 ++ [x]) y []
        have e2 := ih xs1 []
          (by simp only [List.length_nil, List.length_cons] at hlen ⊢; omega) x y
        have e3 := levSpec_cons_cons x1 xs1 y []
        simp only [List.nil_append] at e2 ⊢
        rw [List.cons_append, e1, e2, e3]
        simp only [levSpec_nil_left, levSpec_nil_right, List.length_append,
          List.length_cons, List.length_nil]
        exact min5_swap_left xs1.length (levSpec xs1 [y])
          (if x = y then 0 else 1) (if x1 = y then 0 else 1)
      case cons.cons =>
        have hl : xs1.length + ys1.length ≤ n := by
          simp only [List.length_cons] at hlen; omega
        have hl2 : (x1 :: xs1).length + ys1.length ≤ n := by
          simp only [List.length_cons] at hlen ⊢; omega
        have hl3 : xs1.length + (y1 :: ys1).length ≤ n := by
          simp only [List.length_cons] at hlen ⊢; omega
        have e1 := ih xs1 ys1 hl x y
        have e2 := ih (x1 :: xs1) ys1 hl2 x y
        have e3 := ih xs1 (y1 :: ys1) hl3 x y
        have c1 := levSpec_cons_cons x1 (xs1 ++ [x]) y1 (ys1 ++ [y])
        have c2 := levSpec_cons_cons x1 xs1 y1 ys1
        have c3 := levSpec_cons_cons x1 (xs1 ++ [x]) y1 ys1
        have c4 := levSpec_cons_cons x1 xs1 y1 (ys1 ++ [y])
        simp only [List.cons_append] at e2 e3 ⊢
        rw [c1, e1, e2, e3, c2, c3, c4]
        exact min9_swap (levSpec xs1 ys1) (levSpec (xs1 ++ [x]) ys1)
          (levSpec xs1 (ys1 ++ [y])) (levSpec (x1 :: xs1) ys1)
          (levSpec xs1 (y1 :: ys1)) (levSpec (x1 :: (xs1 ++ [x])) ys1)
          (levSpec (x1 :: xs1) (ys1 ++ [y])) (levSpec (xs1 ++ [x]) (y1 :: ys1))
          (levSpec xs1 (y1 :: (ys1 ++ [y])))
          (if x = y then 0 else 1) (if x1 = y1 then 0 else 1)

theorem levSpec_snoc_snoc (xs ys : List Char) (x y : Char) :
    levSpec (xs ++ [x]) (ys ++ [y]) =
      min ((if x = y then 0 else 1) + levSpec xs ys)
        (min (1 + levSpec (xs ++ [x]) ys) (1 + levSpec xs (ys ++ [y]))) :=
  levSpec_snoc_aux (xs.length + ys.length) xs ys le_rfl x y

lemma levSpec_reverse_aux :
    ∀ (n : Nat) (xs ys : List Char), xs.length + ys.length ≤ n →
      levSpec xs.reverse ys.reverse = levSpec xs ys := by
  intro n
  induction n with
  | zero =>
      intro xs ys hlen
      rcases xs with _ | ⟨x, xs⟩ <;> rcases ys with _ | ⟨y, ys⟩
      case nil.nil => rfl
      all_goals
        (exfalso; simp only [List.length_nil, List.length_cons] at hlen; omega)
  | succ n ih =>
      intro xs ys hlen
      rcases xs with _ | ⟨x, xs⟩
      case nil =>
        simp only [List.reverse_nil, levSpec_nil_left, List.length_reverse]
      rcases ys with _ | ⟨y, ys⟩
      case nil =>
        simp only [List.reverse_nil, levSpec_nil_right, List.length_reverse]
      case cons =>
        simp only [List.reverse_cons]
        rw [levSpec_snoc_snoc, levSpec_cons_cons]
        have hl : xs.length + ys.length ≤ n := by
          simp only [List.length_cons] at hlen; omega
        have hl2 : (x :: xs).length + ys.length ≤ n := by
          simp only [List.length_cons] at hlen ⊢; omega
        have hl3 : xs.length + (y :: ys).length ≤ n := by
          simp only [List.length_cons] at hlen ⊢; omega
        have e1 := ih xs ys hl
        have e2 := ih (x :: xs) ys hl2
        have e3 := ih xs (y :: ys) hl3
        simp only [List.reverse_cons] at e2 e3
        rw [e1, e2, e3]

theorem levSpec_reverse (xs ys : List Char) :
    levSpec xs.reverse ys.reverse = levSpec xs ys :=
  levSpec_reverse_aux (xs.length + ys.length) xs ys le_rfl

/-- The implemented `getEditDistance` computes exactly the standard
unit-cost Levenshtein distance of the two strings. -/
theorem getEditDistance_eq_levSpec (s1 s2 : String) :
    getEditDistance s1 s2 = levSpec s1.data s2.data := by
  unfold getEditDistance
  rw [editDistAux_eq_levSpec, levSpec_reverse]

-- ## Helper lemmas: maskWord

lemma mask_enumFrom_nil :
    ∀ (l : List Char) (k : Nat),
      (List.enumFrom k l).map
        (fun p => if ([] : List Nat).contains p.1 then p.2.toString else "_") =
      List.replicate l.length "_" := by
  intro l
  induction l with
  | nil => intro k; rfl
  | cons c cs ih =>
      intro k
      simp only [List.enumFrom, List.map_cons, List.length_cons,
        List.replicate_succ, ih (k + 1)]
      rfl

set_option maxRecDepth 2000 in
lemma mask_enumFrom_range :
    ∀ (l : List Char) (k n : Nat), k + l.length ≤ n →
      (List.enumFrom k l).map
        (fun p => if (List.range n).contains p.1 then p.2.toString else "_") =
      l.map (fun c => c.toString) := by
  intro l
  induction l with
  | nil => intro k n _; rfl
  | cons c cs ih =>
      intro k n hkn
      simp only [List.length_cons] at hkn
      have hk : (List.range n).contains k = true := by
        simp only [List.contains, List.elem_eq_mem, decide_eq_true_eq,
          List.mem_range]
        omega
      simp only [List.enumFrom, List.map_cons, hk, if_pos, if_true]
      rw [ih (k + 1) n (by omega)]

-- ## Claim theorems

/-- Claim C1: for every correct guess the points awarded are
`max(MIN_POINTS, floor(MAX_POINTS * (floor(timeRemaining/5)*5) / TURN_SECONDS))`
with `MAX_POINTS = 500`, `MIN_POINTS = 50`, `TURN_SECONDS = 60` (the guess
handler awards `calculatePoints timeRemaining TURN_SECONDS`); in particular a
correct guess with `timeRemaining = 58` awards `floor(500*55/60) = 458`
points. -/
theorem claim_C1_points_formula :
    (∀ t : Nat, calculatePoints t TURN_SECONDS =
        max MIN_POINTS (MAX_POINTS * (t / 5 * 5) / TURN_SECONDS)) ∧
      TURN_SECONDS = 60 ∧ MAX_POINTS = 500 ∧ MIN_POINTS = 50 ∧
      calculatePoints 58 60 = 458 := by
  refine ⟨fun t => calculatePoints_formula t TURN_SECONDS, rfl, rfl, rfl, ?_⟩
  rw [show (60 : Nat) = TURN_SECONDS from rfl, calculatePoints_formula]
  decide

/-- Claim C9: `maskWord w []` reveals no letter (every position is an
underscore, joined by single spaces), and `maskWord w (range |w|)` is `w`
with single-space separators between its characters. -/
theorem claim_C9_mask_roundtrip (w : String) :
    maskWord w [] = String.intercalate " " (List.replicate w.length "_") ∧
    maskWord w (List.range w.length) =
      String.intercalate " " (w.data.map (fun c => c.toString)) := by
  obtain ⟨l⟩ := w
  constructor
  · unfold maskWord
    rw [show (String.mk l).data = l from rfl,
      show List.enum l = List.enumFrom 0 l from rfl, mask_enumFrom_nil l 0]
    rfl
  · unfold maskWord
    rw [show (String.mk l).data = l from rfl,
      show List.enum l = List.enumFrom 0 l from rfl]
    rw [mask_enumFrom_range l 0 (String.mk l).length
      (by rw [show (String.mk l).length = l.length from rfl]; omega)]

/-- Claim C3: at every end of turn with a non-empty player list (and a
state satisfying the documented invariants `drawerIndex < |players|`,
`round ≥ 1`, `maxRounds ≥ 1`), the engine rotates
`drawerIndex := (drawerIndex + 1) mod |players|`, increments `round` by one
exactly when the rotation wraps to 0, and emits `gameOver` with the reset of
`gameStarted`, `currentWord` and `correctGuessers` exactly when the
post-increment round exceeds `maxRounds`. -/
theorem claim_C3_rotation (room : Room)
    (hne : room.players ≠ [])
    (hidx : room.drawerIndex < room.players.length)
    (hround : 1 ≤ room.round)
    (hmax : 1 ≤ room.maxRounds) :
    (endTurn room).1.drawerIndex =
        (room.drawerIndex + 1) % room.players.length ∧
    (endTurn room).1.round =
        (if (room.drawerIndex + 1) % room.players.length = 0
          then room.round + 1 else room.round) ∧
    ((room.maxRounds < ((endTurn room).1.round : Int)) ↔
        hasGameOver (endTurn room).2 = true) ∧
    (room.maxRounds < ((endTurn room).1.round : Int) →
      (endTurn room).1.gameStarted = false ∧
        (endTurn room).1.currentWord = none ∧
        (endTurn room).1.correctGuessers = []) := by
  have hlen : room.players.length ≠ 0 := by
    intro h; exact hne (List.length_eq_zero.mp h)
  have hhp : hasPlayers room = true := by
    simp [hasPlayers, hlen]
  have hgdi : getDrawerIndex room = room.drawerIndex := by
    unfold getDrawerIndex
    rw [if_neg hlen]
    omega
  have hno : natOr room.round 1 = room.round := by
    unfold natOr; rw [if_neg (by omega)]
  have hio : intOr room.maxRounds 3 = room.maxRounds := by
    unfold intOr; rw [if_neg (by omega)]
  set nextIdx := (room.drawerIndex + 1) % room.players.length with hni
  set round1 : Nat :=
    (if nextIdx = 0 then room.round + 1 else room.round) with hr1
  have hround1 : 1 ≤ round1 := by
    rw [hr1]; split <;> omega
  have hno1 : natOr round1 1 = round1 := by
    unfold natOr; rw [if_neg (by omega)]
  unfold endTurn
  rw [hhp, hgdi, hno, hio]
  simp only [Bool.not_true, if_neg (by simp : ¬((false : Bool) = true))]
  rw [← hni, ← hr1, hno1]
  by_cases hgo : room.maxRounds < (round1 : Int)
  · rw [if_pos hgo]
    simp [hasGameOver, hgo]
  · rw [if_neg hgo]
    simp [hasGameOver, hgo]

/-- Witness for C3: two players, `drawerIndex = 1`, `round = maxRounds = 1`;
the rotation wraps to 0, the round becomes 2 > 1, and `gameOver` with the
state reset follows. -/
theorem claim_C3_rotation_witness :
    roomLastTurn.players ≠ [] ∧
    roomLastTurn.drawerIndex < roomLastTurn.players.length ∧
    1 ≤ roomLastTurn.round ∧ (1 : Int) ≤ roomLastTurn.maxRounds ∧
    ((endTurn roomLastTurn).1.drawerIndex =
        (roomLastTurn.drawerIndex + 1) % roomLastTurn.players.length ∧
      (endTurn roomLastTurn).1.round =
        (if (roomLastTurn.drawerIndex + 1) % roomLastTurn.players.length = 0
          then roomLastTurn.round + 1 else roomLastTurn.round) ∧
      ((roomLastTurn.maxRounds < ((endTurn roomLastTurn).1.round : Int)) ↔
        hasGameOver (endTurn roomLastTurn).2 = true) ∧
      (roomLastTurn.maxRounds < ((endTurn roomLastTurn).1.round : Int) →
        (endTurn roomLastTurn).1.gameStarted = false ∧
          (endTurn roomLastTurn).1.currentWord = none ∧
          (endTurn roomLastTurn).1.correctGuessers = [])) :=
  ⟨by decide, by decide, by decide, by decide,
    claim_C3_rotation roomLastTurn (by decide) (by decide) (by decide)
      (by decide)⟩

-- ## Helper lemmas: strings and the guess handler

lemma stringMk_eq_empty_iff (l : List Char) : String.mk l = "" ↔ l = [] := by
  constructor
  · intro h
    have h2 := congrArg String.data h
    exact h2
  · intro h
    rw [h]

lemma lowerString_ne_empty {w : String} (h : w ≠ "") : lowerString w ≠ "" := by
  intro hc
  apply h
  unfold lowerString at hc
  have h2 := (stringMk_eq_empty_iff _).mp hc
  have h3 : w.data = [] := by
    cases hd : w.data with
    | nil => rfl
    | cons a l2 => rw [hd] at h2; simp at h2
  cases w
  simp only at h3
  rw [h3]

lemma handleGuess_ignored (validate : String → Option String) (room : Room)
    (senderId senderName guess : String) (t : Nat) (w cleaned : String)
    (hw : room.currentWord = some w) (hwne : w ≠ "")
    (hg : room.gameStarted = true) (hv : validate guess = some cleaned)
    (heq : normalizeGuess cleaned = lowerString w)
    (hid : (∃ d, getDrawer room = some d ∧ d.id = senderId) ∨
      senderId ∈ room.correctGuessers) :
    handleGuess validate room senderId senderName guess t = (room, []) := by
  have hgne : normalizeGuess cleaned ≠ "" := heq ▸ lowerString_ne_empty hwne
  simp only [handleGuess, hw, hg, hv]
  rw [if_neg hwne]
  simp only [Bool.not_true, if_neg (by simp : ¬((false : Bool) = true))]
  rw [if_neg hgne, if_pos heq]
  split
  · rfl
  next hfalse =>
    exfalso
    apply hfalse
    rcases hid with ⟨d, hd, hds⟩ | hmem
    · rw [hd]
      simp [hds]
    · have hc : room.correctGuessers.contains senderId = true := by
        simp only [List.contains, List.elem_eq_mem, decide_eq_true_eq]
        exact hmem
      rw [hc]
      simp

lemma addScore_ids (ps : List Player) (sid : String) (pts : Nat) :
    (addScore ps sid pts).map (fun p => p.id) = ps.map (fun p => p.id) := by
  induction ps with
  | nil => rfl
  | cons p rest ih =>
      unfold addScore
      split
      · simp
      · simp [ih]

lemma addScore_length (ps : List Player) (sid : String) (pts : Nat) :
    (addScore ps sid pts).length = ps.length := by
  have h := congrArg List.length (addScore_ids ps sid pts)
  simpa using h

lemma addScore_get_id (ps : List Player) (sid : String) (pts : Nat) (i : Nat) :
    ((addScore ps sid pts).get? i).map (fun p => p.id) =
      (ps.get? i).map (fun p => p.id) := by
  rw [← List.get?_map, ← List.get?_map, addScore_ids]

lemma endTurn_guessers_invariant (r : Room)
    (hnd : r.correctGuessers.Nodup)
    (hdr : ∀ d, getDrawer r = some d → d.id ∉ r.correctGuessers) :
    (endTurn r).1.correctGuessers.Nodup ∧
      (∀ d, getDrawer (endTurn r).1 = some d →
        d.id ∉ (endTurn r).1.correctGuessers) := by
  unfold endTurn
  by_cases hp : hasPlayers r = true
  · rw [hp]
    simp only [Bool.not_true, if_neg (by simp : ¬((false : Bool) = true))]
    repeat' split
    all_goals
      exact ⟨List.nodup_nil, fun d _ hmem => absurd hmem (List.not_mem_nil d.id)⟩
  · rw [Bool.not_eq_true] at hp
    rw [hp]
    simp only [Bool.not_false, if_pos rfl]
    exact ⟨hnd, hdr⟩

lemma nodup_append_singleton {l : List String} {a : String}
    (h : l.Nodup) (ha : a ∉ l) : (l ++ [a]).Nodup := by
  simp [List.nodup_append, h, ha]

lemma scoring_room_drawer {room : Room} {sid : String} {pts : Nat} {d : Player}
    (hd : (addScore room.players sid pts).get? (getDrawerIndex room) = some d) :
    ∃ d0, room.players.get? (getDrawerIndex room) = some d0 ∧ d0.id = d.id := by
  have h := addScore_get_id room.players sid pts (getDrawerIndex room)
  rw [hd] at h
  cases hps : room.players.get? (getDrawerIndex room) with
  | none => rw [hps] at h; simp at h
  | some d0 =>
      rw [hps] at h
      simp at h
      exact ⟨d0, rfl, h.symm⟩

lemma handleGuess_invariant_aux (validate : String → Option String)
    (room : Room) (senderId senderName guess : String) (t : Nat)
    (hnd : room.correctGuessers.Nodup)
    (hdr : ∀ d, getDrawer room = some d → d.id ∉ room.correctGuessers) :
    (handleGuess validate room senderId senderName guess t).1.correctGuessers.Nodup ∧
      (∀ d, getDrawer (handleGuess validate room senderId senderName guess t).1 = some d →
        d.id ∉ (handleGuess validate room senderId senderName guess t).1.correctGuessers) := by
  simp only [handleGuess]
  split
  · exact ⟨hnd, hdr⟩
  split
  · exact ⟨hnd, hdr⟩
  split
  · exact ⟨hnd, hdr⟩
  split
  · exact ⟨hnd, hdr⟩
  split
  · exact ⟨hnd, hdr⟩
  split
  · split
    · exact ⟨hnd, hdr⟩
    next hfalse =>
      rw [Bool.or_eq_true, not_or] at hfalse
      obtain ⟨hnotdrawer, hnotalready⟩ := hfalse
      have hmem : senderId ∉ room.correctGuessers := by
        intro hm
        apply hnotalready
        simp only [List.contains, List.elem_eq_mem, decide_eq_true_eq]
        exact hm
      have hsubnd : (room.correctGuessers ++ [senderId]).Nodup :=
        nodup_append_singleton hnd hmem
      have hsubdr : ∀ (r1 : Room),
          r1.players = addScore room.players senderId
            (calculatePoints t TURN_SECONDS) →
          r1.drawerIndex = room.drawerIndex →
          r1.correctGuessers = room.correctGuessers ++ [senderId] →
          ∀ d1, getDrawer r1 = some d1 → d1.id ∉ r1.correctGuessers := by
        intro r1 hp1 hdi1 hcg1 d1 hd1 hmem1
        rw [hcg1] at hmem1
        unfold getDrawer getDrawerIndex at hd1
        rw [hp1, hdi1] at hd1
        by_cases hlen : room.players.length = 0
        · rw [if_pos (by simpa [addScore_length] using hlen)] at hd1
          exact Option.noConfusion hd1
        · rw [if_neg (by simpa [addScore_length] using hlen),
            if_neg (by simpa [addScore_length] using hlen)] at hd1
          simp only [addScore_length] at hd1
          have hgdi : getDrawerIndex room =
              min room.drawerIndex (room.players.length - 1) := by
            unfold getDrawerIndex
            rw [if_neg hlen]
          obtain ⟨d0, hd0, hid0⟩ := scoring_room_drawer (by
            rw [hgdi]; exact hd1)
          have hdraw0 : getDrawer room = some d0 := by
            unfold getDrawer
            rw [if_neg hlen]
            exact hd0
          rcases List.mem_append.mp hmem1 with hmem2 | hmem2
          · exact hdr d0 hdraw0 (hid0 ▸ hmem2)
          · apply hnotdrawer
            rw [hdraw0]
            have hds : d0.id = senderId := by
              rw [hid0]
              simpa using hmem2
            simp [hds]
      split
      · refine endTurn_guessers_invariant _ hsubnd ?_
        exact hsubdr _ rfl rfl rfl
      · exact ⟨hsubnd, hsubdr _ rfl rfl rfl⟩
  · exact ⟨hnd, hdr⟩

/-- Claim C7: the drawer never appears in `correctGuessers` and no id
appears twice: the guess handler preserves this invariant for every guess,
and a correct guess by the drawer, or a repeat correct guess by a player
who already scored this turn, leaves the room state entirely unchanged and
emits nothing. -/
theorem claim_C7_guessers_invariant (validate : String → Option String)
    (room : Room) (senderId senderName guess : String) (t : Nat)
    (hnd : room.correctGuessers.Nodup)
    (hdr : ∀ d, getDrawer room = some d → d.id ∉ room.correctGuessers) :
    ((handleGuess validate room senderId senderName guess t).1.correctGuessers.Nodup ∧
      (∀ d, getDrawer (handleGuess validate room senderId senderName guess t).1 = some d →
        d.id ∉ (handleGuess validate room senderId senderName guess t).1.correctGuessers)) ∧
    (∀ w cleaned, room.currentWord = some w → w ≠ "" →
      room.gameStarted = true → validate guess = some cleaned →
      normalizeGuess cleaned = lowerString w →
      ((∃ d, getDrawer room = some d ∧ d.id = senderId) ∨
        senderId ∈ room.correctGuessers) →
      handleGuess validate room senderId senderName guess t = (room, [])) := by
  refine ⟨handleGuess_invariant_aux validate room senderId senderName guess t
    hnd hdr, ?_⟩
  intro w cleaned hw hwne hg hv heq hid
  exact handleGuess_ignored validate room senderId senderName guess t w cleaned
    hw hwne hg hv heq hid

/-- Witness for C7: in `roomHouse` the drawer Alice submits the correct
word "house"; the handler ignores it, leaving the room unchanged and
emitting nothing. -/
theorem claim_C7_witness :
    roomHouse.correctGuessers.Nodup ∧
    handleGuess validateMessage roomHouse "A" "Alice" "house" 30 =
      (roomHouse, []) := by
  have h := claim_C7_guessers_invariant validateMessage roomHouse "A" "Alice"
    "house" 30 (by decide)
    (fun d _ => List.not_mem_nil d.id)
  refine ⟨by decide, ?_⟩
  exact h.2 "house" "house" rfl (by decide) rfl (by decide) (by decide)
    (Or.inl ⟨alice, by decide, rfl⟩)

lemma handleGuess_wrong (validate : String → Option String) (room : Room)
    (senderId senderName guess : String) (t : Nat) (w cleaned : String)
    (hw : room.currentWord = some w) (hwne : w ≠ "")
    (hg : room.gameStarted = true) (hv : validate guess = some cleaned)
    (hne : normalizeGuess cleaned ≠ "")
    (hnoteq : normalizeGuess cleaned ≠ lowerString w) :
    handleGuess validate room senderId senderName guess t =
      (room,
        (if 3 ≤ (lowerString w).length ∧
            getEditDistance (normalizeGuess cleaned) (lowerString w) = 1 then
          [(Target.socket senderId, Event.closeGuess "You are very close!")]
        else []) ++
        [(Target.room, Event.chatMsg senderId senderName cleaned)]) := by
  simp only [handleGuess, hw, hg, hv]
  rw [if_neg hwne]
  simp only [Bool.not_true, if_neg (by simp : ¬((false : Bool) = true))]
  rw [if_neg hne, if_neg hnoteq]

lemma handleGuess_scoring_event (validate : String → Option String)
    (room : Room) (senderId senderName guess : String) (t : Nat)
    (w cleaned : String)
    (hw : room.currentWord = some w) (hwne : w ≠ "")
    (hg : room.gameStarted = true) (hv : validate guess = some cleaned)
    (heq : normalizeGuess cleaned = lowerString w)
    (hnotdr : ∀ d, getDrawer room = some d → d.id ≠ senderId)
    (hnotmem : senderId ∉ room.correctGuessers) :
    (Target.room, Event.correctGuess senderId senderName
        (calculatePoints t TURN_SECONDS)
        (match room.players.find? (fun p => p.id = senderId) with
          | some p => p.score + calculatePoints t TURN_SECONDS
          | none => 0)) ∈
      (handleGuess validate room senderId senderName guess t).2 := by
  have hgne : normalizeGuess cleaned ≠ "" := heq ▸ lowerString_ne_empty hwne
  simp only [handleGuess, hw, hg, hv]
  rw [if_neg hwne]
  simp only [Bool.not_true, if_neg (by simp : ¬((false : Bool) = true))]
  rw [if_neg hgne, if_pos heq]
  split
  · next htrue =>
      exfalso
      rw [Bool.or_eq_true] at htrue
      rcases htrue with hdrw | hcont
      · cases hgd : getDrawer room with
        | none => rw [hgd] at hdrw; simp at hdrw
        | some d =>
            rw [hgd] at hdrw
            simp only [decide_eq_true_eq] at hdrw
            exact hnotdr d hgd hdrw
      · simp only [List.contains, List.elem_eq_mem, decide_eq_true_eq] at hcont
        exact hnotmem hcont
  · split
    · exact List.mem_cons_self _ _
    · exact List.mem_cons_self _ _

/-- Claim C2 (amended): the guess is normalized by trimming, lowercasing and
stripping all whitespace, but `currentWord` is only LOWERCASED (not trimmed,
not whitespace-stripped); the comparison, the length test and the edit
distance all use the lowercased word.  `getEditDistance` is the standard
unit-cost Levenshtein distance; a non-matching normalized guess yields the
private close notice to the sender exactly when `|lowercased word| ≥ 3` and
the distance is exactly 1, plus the chat broadcast; a matching normalized
guess by an eligible sender yields the `correctGuess` broadcast. -/
theorem claim_C2_amended (validate : String → Option String) (room : Room)
    (senderId senderName guess : String) (t : Nat) (w cleaned : String)
    (hw : room.currentWord = some w) (hwne : w ≠ "")
    (hg : room.gameStarted = true) (hv : validate guess = some cleaned)
    (hne : normalizeGuess cleaned ≠ "") :
    (getEditDistance (normalizeGuess cleaned) (lowerString w) =
        levSpec (normalizeGuess cleaned).data (lowerString w).data) ∧
    (normalizeGuess cleaned ≠ lowerString w →
      handleGuess validate room senderId senderName guess t =
        (room,
          (if 3 ≤ (lowerString w).length ∧
              getEditDistance (normalizeGuess cleaned) (lowerString w) = 1 then
            [(Target.socket senderId, Event.closeGuess "You are very close!")]
          else []) ++
          [(Target.room, Event.chatMsg senderId senderName cleaned)])) ∧
    (normalizeGuess cleaned = lowerString w →
      (∀ d, getDrawer room = some d → d.id ≠ senderId) →
      senderId ∉ room.correctGuessers →
      (Target.room, Event.correctGuess senderId senderName
          (calculatePoints t TURN_SECONDS)
          (match room.players.find? (fun p => p.id = senderId) with
            | some p => p.score + calculatePoints t TURN_SECONDS
            | none => 0)) ∈
        (handleGuess validate room senderId senderName guess t).2) := by
  refine ⟨getEditDistance_eq_levSpec _ _, ?_, ?_⟩
  · intro hnoteq
    exact handleGuess_wrong validate room senderId senderName guess t w cleaned
      hw hwne hg hv hne hnoteq
  · intro heq hnotdr hnotmem
    exact handleGuess_scoring_event validate room senderId senderName guess t
      w cleaned hw hwne hg hv heq hnotdr hnotmem

/-- Counterexample to C2 as stated: with `currentWord = "ice cream"` and the
guess "ice cream", the claim-side normalized guess equals the normalized
current word, so the claim requires the guesser to score; the code instead
leaves the room unchanged and sends the private close notice plus the chat
echo, because it compares against the merely lowercased word "ice cream". -/
theorem claim_C2_counterexample :
    roomIceCream.currentWord = some "ice cream" ∧
    roomIceCream.gameStarted = true ∧
    validateMessage "ice cream" = some "ice cream" ∧
    normalizeGuess "ice cream" = normalizeGuess "ice cream" ∧
    handleGuess validateMessage roomIceCream "B" "Bob" "ice cream" 30 =
      (roomIceCream,
        [(Target.socket "B", Event.closeGuess "You are very close!"),
         (Target.room, Event.chatMsg "B" "Bob" "ice cream")]) := by
  have hdist : getEditDistance "icecream" "ice cream" = 1 := by
    simp [getEditDistance, editDistAux]
  refine ⟨rfl, rfl, by decide, rfl, ?_⟩
  rw [handleGuess_wrong validateMessage roomIceCream "B" "Bob" "ice cream" 30
    "ice cream" "ice cream" rfl (by decide) rfl (by decide) (by decide)
    (by decide)]
  rw [if_pos ⟨by decide, by
    rw [show normalizeGuess "ice cream" = "icecream" from rfl,
      show lowerString "ice cream" = "ice cream" from rfl]
    exact hdist⟩]
  rfl

/-- Witness for the amended C2: Bob guesses "mouse" for the word "house",
and receives the private close notice plus the chat echo. -/
theorem claim_C2_witness :
    roomHouse.currentWord = some "house" ∧
    validateMessage "mouse" = some "mouse" ∧
    normalizeGuess "mouse" ≠ "" ∧
    normalizeGuess "mouse" ≠ lowerString "house" ∧
    handleGuess validateMessage roomHouse "B" "Bob" "mouse" 30 =
      (roomHouse,
        (if 3 ≤ (lowerString "house").length ∧
            getEditDistance (normalizeGuess "mouse") (lowerString "house") = 1 then
          [(Target.socket "B", Event.closeGuess "You are very close!")]
        else []) ++
        [(Target.room, Event.chatMsg "B" "Bob" "mouse")]) := by
  refine ⟨rfl, by decide, by decide, by decide, ?_⟩
  exact (claim_C2_amended validateMessage roomHouse "B" "Bob" "mouse" 30
    "house" "mouse" rfl (by decide) rfl (by decide) (by decide)).2.1
    (by decide)

/-- Counterexample to C4 as stated: the host of `roomPreStart` starts the
game successfully, but the players keep their previous scores 42 and 7 —
`startGame` never resets scores. -/
theorem claim_C4_counterexample :
    (handleStartGame roomPreStart "A").2.2 = true ∧
    (handleStartGame roomPreStart "A").1.round = 1 ∧
    (handleStartGame roomPreStart "A").1.drawerIndex = 0 ∧
    (handleStartGame roomPreStart "A").1.players.map (fun p => p.score) =
      [42, 7] := by
  decide

/-- Claim C4 (amended): `startGame` succeeds only when the caller is the
host (`players[0]`) and `|players| ≥ 2` (and the game is not already
running); on success it sets `round = 1` and `drawerIndex = 0` and leaves
the player list — in particular every score — unchanged. -/
theorem claim_C4_amended (room : Room) (callerId : String) :
    ((handleStartGame room callerId).2.2 = true →
      (room.players.head?).map (fun p => p.id) = some callerId ∧
        2 ≤ room.players.length ∧ room.gameStarted = false) ∧
    (∀ p0, room.players.head? = some p0 → p0.id = callerId →
      2 ≤ room.players.length → room.gameStarted = false →
      (handleStartGame room callerId).2.2 = true ∧
        (handleStartGame room callerId).1 =
          { room with round := 1, drawerIndex := 0 }) := by
  constructor
  · intro hs
    simp only [handleStartGame] at hs
    cases hh : (room.players.head?).map (fun p => p.id) with
    | none => rw [hh] at hs; simp at hs
    | some cid =>
        rw [hh] at hs
        dsimp only at hs
        by_cases hcid : cid ≠ callerId
        · rw [if_pos hcid] at hs; simp at hs
        · rw [if_neg hcid] at hs
          rw [not_not] at hcid
          subst hcid
          by_cases hlt : room.players.length < 2
          · rw [if_pos hlt] at hs; simp at hs
          · rw [if_neg hlt] at hs
            by_cases hgs : room.gameStarted
            · rw [if_pos hgs] at hs; simp at hs
            · exact ⟨rfl, by omega, by simpa using hgs⟩
  · intro p0 hh hpid hlen hgs
    simp only [handleStartGame, hh, Option.map_some']
    rw [if_neg (by simp [hpid]), if_neg (by omega), if_neg (by simp [hgs])]
    exact ⟨rfl, rfl⟩

/-- Witness for the amended C4: the host starts `roomPreStart`. -/
theorem claim_C4_witness :
    roomPreStart.players.head? = some alice ∧ alice.id = "A" ∧
    2 ≤ roomPreStart.players.length ∧ roomPreStart.gameStarted = false ∧
    ((handleStartGame roomPreStart "A").2.2 = true ∧
      (handleStartGame roomPreStart "A").1 =
        { roomPreStart with round := 1, drawerIndex := 0 }) :=
  ⟨rfl, rfl, by decide, rfl,
    (claim_C4_amended roomPreStart "A").2 alice rfl rfl (by decide) rfl⟩

/-- Counterexample to C5 as stated: `updateSettings` with `rounds = 50`
stores `maxRounds = 50`, outside the claimed range 1-10 — the code never
clamps `maxRounds`. -/
theorem claim_C5_counterexample :
    roomPreStart.gameStarted = false ∧
    roomPreStart.players.head? = some alice ∧ alice.id = "A" ∧
    settingsRounds50.rounds = 50 ∧
    (handleUpdateSettings roomPreStart "A" settingsRounds50).1.maxRounds = 50 ∧
    ¬((handleUpdateSettings roomPreStart "A" settingsRounds50).1.maxRounds ≤ 10) := by
  decide

/-- Claim C5 (amended): an accepted `updateSettings` clamps `drawTime` to
30-180, `wordCount` to 3-5, `maxPlayers` to 2-15 and
`customWordProbability` to 0-100, but stores `maxRounds = settings.rounds`
unclamped (default 3 when the field is absent). -/
theorem claim_C5_amended (room : Room) (callerId : String) (s : SettingsInput)
    (p0 : Player) (hh : room.players.head? = some p0)
    (hpid : p0.id = callerId) (hgs : room.gameStarted = false) :
    30 ≤ (handleUpdateSettings room callerId s).1.drawTime ∧
    (handleUpdateSettings room callerId s).1.drawTime ≤ 180 ∧
    3 ≤ (handleUpdateSettings room callerId s).1.wordCount ∧
    (handleUpdateSettings room callerId s).1.wordCount ≤ 5 ∧
    2 ≤ (handleUpdateSettings room callerId s).1.maxPlayers ∧
    (handleUpdateSettings room callerId s).1.maxPlayers ≤ 15 ∧
    0 ≤ (handleUpdateSettings room callerId s).1.customWordProbability ∧
    (handleUpdateSettings room callerId s).1.customWordProbability ≤ 100 ∧
    (handleUpdateSettings room callerId s).1.maxRounds = intOr s.rounds 3 := by
  have hres : (handleUpdateSettings room callerId s).1 = { room with
      maxRounds := intOr s.rounds 3
      drawTime := max 30 (min 180 (intOr s.drawTime 60))
      wordCount := max 3 (min 5 (intOr s.wordCount 3))
      maxPlayers := max 2 (min 15 (intOr s.maxPlayers 8))
      customWords := parseCustomWords s.customWords
      customWordProbability :=
        max 0 (min 100 (intOr s.customWordProbability 0)) } := by
    simp only [handleUpdateSettings, hh, Option.map_some']
    rw [if_neg (by simp [hpid]), if_neg (by simp [hgs])]
  have h1 : (handleUpdateSettings room callerId s).1.drawTime =
      max 30 (min 180 (intOr s.drawTime 60)) := by rw [hres]
  have h2 : (handleUpdateSettings room callerId s).1.wordCount =
      max 3 (min 5 (intOr s.wordCount 3)) := by rw [hres]
  have h3 : (handleUpdateSettings room callerId s).1.maxPlayers =
      max 2 (min 15 (intOr s.maxPlayers 8)) := by rw [hres]
  have h4 : (handleUpdateSettings room callerId s).1.customWordProbability =
      max 0 (min 100 (intOr s.customWordProbability 0)) := by rw [hres]
  have h5 : (handleUpdateSettings room callerId s).1.maxRounds =
      intOr s.rounds 3 := by rw [hres]
  rw [h1, h2, h3, h4, h5]
  refine ⟨?_, ?_, ?_, ?_, ?_, ?_, ?_, ?_, rfl⟩ <;>
    · generalize intOr _ _ = v
      omega

/-- Witness for the amended C5 at the 50-rounds payload. -/
theorem claim_C5_witness :
    roomPreStart.players.head? = some alice ∧ alice.id = "A" ∧
    roomPreStart.gameStarted = false ∧
    (30 ≤ (handleUpdateSettings roomPreStart "A" settingsRounds50).1.drawTime ∧
      (handleUpdateSettings roomPreStart "A" settingsRounds50).1.drawTime ≤ 180 ∧
      3 ≤ (handleUpdateSettings roomPreStart "A" settingsRounds50).1.wordCount ∧
      (handleUpdateSettings roomPreStart "A" settingsRounds50).1.wordCount ≤ 5 ∧
      2 ≤ (handleUpdateSettings roomPreStart "A" settingsRounds50).1.maxPlayers ∧
      (handleUpdateSettings roomPreStart "A" settingsRounds50).1.maxPlayers ≤ 15 ∧
      0 ≤ (handleUpdateSettings roomPreStart "A" settingsRounds50).1.customWordProbability ∧
      (handleUpdateSettings roomPreStart "A" settingsRounds50).1.customWordProbability ≤ 100 ∧
      (handleUpdateSettings roomPreStart "A" settingsRounds50).1.maxRounds =
        intOr settingsRounds50.rounds 3) :=
  ⟨rfl, rfl, rfl,
    claim_C5_amended roomPreStart "A" settingsRounds50 alice rfl rfl rfl⟩

/-- Counterexample to C6 as stated: a room whose chat already holds 50
entries accepts one more message and ends with 51 — no 50-entry ring trim
exists in the chat handler. -/
theorem claim_C6_counterexample :
    roomChat50.chat.length = 50 ∧
    trimChars ("hello").data ≠ [] ∧
    validateMessage "hello" = some "hello" ∧
    (handleChat validateMessage roomChat50 "A" "Alice" "hello" 0).1.chat.length
      = 51 := by
  decide

/-- Claim C6 (amended): every accepted chat message is appended at the end
of the chat list, whose length therefore grows by exactly one; the history
is unbounded (the 50-entry ring of the spec is not enforced). -/
theorem claim_C6_amended (validate : String → Option String) (room : Room)
    (senderId name msg : String) (now : Nat) (cleaned : String)
    (hne : trimChars msg.data ≠ [])
    (hv : validate msg = some cleaned) :
    (handleChat validate room senderId name msg now).1.chat =
      room.chat ++ [{ id := senderId, name := name, msg := cleaned, ts := now }] ∧
    (handleChat validate room senderId name msg now).1.chat.length =
      room.chat.length + 1 := by
  simp only [handleChat, hv]
  rw [if_neg hne]
  exact ⟨rfl, by simp⟩

/-- Witness for the amended C6 at the 50-entry room. -/
theorem claim_C6_witness :
    trimChars ("hello").data ≠ [] ∧
    validateMessage "hello" = some "hello" ∧
    ((handleChat validateMessage roomChat50 "A" "Alice" "hello" 0).1.chat =
        roomChat50.chat ++ [{ id := "A", name := "Alice", msg := "hello", ts := 0 }] ∧
      (handleChat validateMessage roomChat50 "A" "Alice" "hello" 0).1.chat.length =
        roomChat50.chat.length + 1) :=
  ⟨by decide, by decide,
    claim_C6_amended validateMessage roomChat50 "A" "Alice" "hello" 0 "hello"
      (by decide) (by decide)⟩

/-- Counterexample to C8 as stated: when the only player of `roomSolo`
disconnects, the room is deleted immediately (`none`), not after any idle
or empty period. -/
theorem claim_C8_counterexample :
    roomSolo.players.map (fun p => p.id) = ["A"] ∧
    (handleDisconnect roomSolo "A").1 = none := by
  decide

/-- Claim C8 (amended): a room is deleted by the disconnect handler exactly
when the disconnect leaves the player list empty; deletion is immediate and
unconditional on time (the source has no time-based sweeper). -/
theorem claim_C8_amended (room : Room) (socketId : String) :
    (handleDisconnect room socketId).1 = none ↔
      room.players.filter (fun p => p.id ≠ socketId) = [] := by
  simp only [handleDisconnect]
  split
  next h =>
    rw [List.length_eq_zero] at h
    exact ⟨fun _ => h, fun _ => rfl⟩
  next h =>
    constructor
    · intro hc
      exact Option.noConfusion hc
    · intro hc
      exfalso
      apply h
      rw [hc]
      rfl

/-- Witness for the amended C8: the singleton room is deleted. -/
theorem claim_C8_witness :
    (handleDisconnect roomSolo "A").1 = none :=
  (claim_C8_amended roomSolo "A").mpr (by decide)

/-- Counterexample to C10 as stated: Alice is already a player of the
at-capacity `roomFull2`, yet her repeat `joinRoom` is answered with the
single error "Room is full" — no `roomJoined` acknowledgment is sent. -/
theorem claim_C10_counterexample :
    roomFull2.players.any (fun p => p.id = "A") = true ∧
    roomFull2.maxPlayers ≤ (roomFull2.players.length : Int) ∧
    validateMessage "Alice" = some "Alice" ∧
    handleJoinRoom validateMessage roomFull2 "A" "Alice" none =
      (roomFull2, [(Target.socket "A", Event.errorMsg "Room is full")]) := by
  decide

/-- Claim C10 (amended): a repeat `joinRoom` by a caller already in the
player list leaves the list unchanged; below capacity the join is
acknowledged (`roomJoined` plus `playerJoined`), at or above capacity the
caller receives "Room is full" instead — the capacity check precedes the
membership check. -/
theorem claim_C10_amended (validate : String → Option String) (room : Room)
    (callerId playerName : String) (avatar : Option (List Nat))
    (cleaned : String)
    (hv : validate playerName = some cleaned)
    (hin : room.players.any (fun p => p.id = callerId) = true) :
    ((room.players.length : Int) < room.maxPlayers →
      handleJoinRoom validate room callerId playerName avatar =
        (room, [(Target.socket callerId, Event.roomJoined room.roomId),
                (Target.room, Event.playerJoined room.players),
                (Target.socket callerId, Event.playerJoined room.players)])) ∧
    (room.maxPlayers ≤ (room.players.length : Int) →
      handleJoinRoom validate room callerId playerName avatar =
        (room, [(Target.socket callerId, Event.errorMsg "Room is full")])) := by
  constructor
  · intro hlt
    simp only [handleJoinRoom, hv]
    rw [if_neg (by omega), if_pos hin]
  · intro hle
    simp only [handleJoinRoom, hv]
    rw [if_pos hle]

/-- Witness for the amended C10: Alice re-joins `roomPreStart` (below
capacity): list unchanged and the join acknowledged. -/
theorem claim_C10_witness :
    validateMessage "Alice" = some "Alice" ∧
    roomPreStart.players.any (fun p => p.id = "A") = true ∧
    (roomPreStart.players.length : Int) < roomPreStart.maxPlayers ∧
    handleJoinRoom validateMessage roomPreStart "A" "Alice" none =
      (roomPreStart,
        [(Target.socket "A", Event.roomJoined roomPreStart.roomId),
         (Target.room, Event.playerJoined roomPreStart.players),
         (Target.socket "A", Event.playerJoined roomPreStart.players)]) :=
  ⟨by decide, by decide, by decide,
    (claim_C10_amended validateMessage roomPreStart "A" "Alice" none "Alice"
      (by decide) (by decide)).1 (by decide)⟩
